import Mathlib

/-!
Shallow embedding of `src/youtube.py` (a PyQt GUI around yt-dlp and ffmpeg).

The program's own logic is a background worker (`DownloadThread.run`) that
iterates a list of `(url, filename)` tasks, calls the external downloader
per item, optionally shells out to ffmpeg, reports progress, collects one
result string per item and emits them in one final signal; plus the GUI
method `start_download` that parses the URL text box into tasks, and
`download_finished` / `create_logger` for the per-run log file.

External effects (yt-dlp, ffmpeg, the file system, Qt signals) are modelled
as oracles and as an explicit event trace: each call to the outside world,
each `progress_update.emit`, each `self.log(...)` write and the final
`finished_signal.emit` becomes one `Event` in the order the Python code
performs them.  Python string operations used by the source (`strip`,
`split`, `splitlines`, `in`, truthiness, `or`) are modelled at character
level so that everything evaluates inside the kernel.
-/

/-- Python truthiness of an `Optional[str]`: `None` and `""` are falsy. -/
def pyTruthy : Option String → Bool
  | none => false
  | some s => decide (s ≠ "")

/-- Python `a or b` for `a : Optional[str]`, `b : str`. -/
def pyOr (o : Option String) (dflt : String) : String :=
  match o with
  | none => dflt
  | some s => if s = "" then dflt else s

/-- Python `str.strip()` (ASCII whitespace), at character level. -/
def pyStrip (s : String) : String :=
  String.mk (((s.data.dropWhile Char.isWhitespace).reverse.dropWhile Char.isWhitespace).reverse)

/-- Does `pat` occur at the start of `l`? -/
def startsWithL : List Char → List Char → Bool
  | [], _ => true
  | _ :: _, [] => false
  | a :: as, b :: bs => a == b && startsWithL as bs

/-- Does `pat` occur as a contiguous sublist of `l`? -/
def containsSubL (pat : List Char) : List Char → Bool
  | [] => pat.isEmpty
  | c :: cs => startsWithL pat (c :: cs) || containsSubL pat cs

/-- Python `pat in s` (substring containment). -/
def pyContains (s pat : String) : Bool :=
  containsSubL pat.data s.data

/-- Helper for `pySplitlines`: accumulate the current line (reversed). -/
def splitlinesAux : List Char → List Char → List String
  | acc, [] => [String.mk acc.reverse]
  | acc, c :: cs =>
      if c = '\n' then
        String.mk acc.reverse :: (match cs with | [] => [] | _ :: _ => splitlinesAux [] cs)
      else
        splitlinesAux (c :: acc) cs

/-- Python `str.splitlines()` for `\n`-separated text (the line separator Qt's
`toPlainText` produces): `""` gives `[]`, a trailing newline yields no extra
empty line. -/
def pySplitlines (s : String) : List String :=
  match s.data with
  | [] => []
  | c :: cs => splitlinesAux [] (c :: cs)

/-- Python `line.split(",", maxsplit=1)`, at character level: split at the
first comma only; a line without a comma stays whole. -/
def pySplit1 (line : String) : List String :=
  match line.data.dropWhile (fun c => decide (c ≠ ',')) with
  | [] => [String.mk (line.data.takeWhile (fun c => decide (c ≠ ',')))]
  | _ :: rest => [String.mk (line.data.takeWhile (fun c => decide (c ≠ ','))), String.mk rest]

/-- Model of `os.path.join` for the relative paths this program builds. -/
def pathJoin (dir name : String) : String :=
  if dir = "" then name
  else if dir.data.getLast? = some '/' then dir ++ name
  else dir ++ "/" ++ name

/-- One `(url, filename)` task, as built by `start_download` (line 178). -/
structure DlTask where
  url : String
  filename : Option String
deriving Repr, DecidableEq

/-- One dict `d` passed by yt-dlp to `progress_hook` (lines 44-53): the
`status` key plus the fields the hook reads via `d.get('downloaded_bytes', 0)`
and `d.get('total_bytes', 1)` (`none` = key absent). -/
structure HookEvent where
  status : String
  downloaded_bytes : Nat
  total_bytes : Option Nat
deriving Repr, DecidableEq

/-- The info dict returned by `ydl.extract_info`; the code only reads
`info.get('title', 'output')` (line 69), so only `title` is modelled
(`none` = key absent). -/
structure Info where
  title : Option String
deriving Repr, DecidableEq

/-- The yt-dlp options dict built at lines 55-65.  `progress_hooks` holds a
closure and is not part of the comparable record; its behaviour is modelled
by `hookRun` below. -/
structure YdlOpts where
  format : String
  outtmpl : String
  merge_output_format : String
  noplaylist : Bool
  quiet : Bool
  cookiefile : Option String
deriving Repr, DecidableEq

/-- Oracle for the external behaviour one item meets: the hook dicts yt-dlp
feeds to `progress_hook` during `extract_info`, the outcome of
`extract_info` itself (info dict, or the exception's message), and the
outcome of launching ffmpeg (its stdout lines, or the exception's message
when `Popen` itself fails). -/
structure ItemBehavior where
  hookEvents : List HookEvent
  dlResult : Except String Info
  ffmpegResult : Except String (List String)

/-- The run configuration a `DownloadThread` is constructed with
(lines 25-31), plus an oracle `fsExists` for `os.path.exists` and whether a
log file was passed (`log_file=None` makes `self.log` a no-op, line 34). -/
structure Config where
  output_dir : String
  to_mp3 : Bool
  cookies_file : Option String
  hasLog : Bool
  fsExists : String → Bool

/-- One observable step of the program, in program order. -/
inductive Event where
  | mkdir (dir : String)
  | dlCall (url : String) (opts : YdlOpts)
  | progress (percent : Nat) (msg : String)
  | log (msg : String)
  | ffmpegCall (cmd : List String)
  | finished (results : List String)
  | createLog (path : String)
  | logRaw (s : String)
  | showInfo (title : String) (msg : String)
deriving Repr, DecidableEq

/-- Model of `self.log(message)` (lines 33-36): writes only when a log file was given.
The timestamp prefix of the written line is elided; the event carries the
message text. -/
def logEv (cfg : Config) (msg : String) : List Event :=
  if cfg.hasLog then [Event.log msg] else []

/-- The `filename or 'video'` display name in the hook messages (lines 47, 51). -/
def dispName (filename : Option String) : String :=
  pyOr filename "video"

/-- The `" (idx/n)"` suffix of the progress messages. -/
def itemTag (idx n : Nat) : String :=
  " (" ++ toString idx ++ "/" ++ toString n ++ ")"

/-- The percentage `int(d.get('downloaded_bytes', 0) / max(d.get('total_bytes', 1), 1) * 100)`
(line 46); `Nat` division is the floor the `int(...)` truncation computes on
these non-negative values. -/
def hookPercent (e : HookEvent) : Nat :=
  e.downloaded_bytes * 100 / max (e.total_bytes.getD 1) 1

/-- Model of `progress_hook(d)` (lines 44-53), as the events one hook dict produces. -/
def hookRun (cfg : Config) (filename : Option String) (idx n : Nat) (e : HookEvent) :
    List Event :=
  if e.status = "downloading" then
    let msg := "Downloading " ++ dispName filename ++ itemTag idx n
    Event.progress (hookPercent e) msg :: logEv cfg msg
  else if e.status = "finished" then
    let msg := "Download finished: " ++ dispName filename ++ itemTag idx n
    Event.progress 100 msg :: logEv cfg msg
  else []

/-- The ffmpeg command line of line 75. -/
def ffmpegCmd (mp4_file mp3_file : String) : List String :=
  ["ffmpeg", "-i", mp4_file, "-vn", "-ab", "192k", "-ar", "44100", "-y", mp3_file]

/-- One iteration of `for line in process.stdout` (lines 77-81). -/
def convLineEvents (cfg : Config) (title : String) (idx n : Nat) (line : String) :
    List Event :=
  if pyContains line "time=" then
    let msg := "Converting " ++ title ++ " to MP3" ++ itemTag idx n
    Event.progress 50 msg :: logEv cfg msg
  else []

/-- The whole stdout scan plus the completion report (lines 77-85). -/
def convTrace (cfg : Config) (title : String) (idx n : Nat) (lines : List String) :
    List Event :=
  (lines.map (convLineEvents cfg title idx n)).flatten
    ++ (Event.progress 100 ("Conversion finished: " ++ title)
          :: logEv cfg ("Conversion finished: " ++ title))

/-- The substring tested at line 91. -/
def appLimitedMarker : String :=
  "The following content is not available on this app"

/-- The hint appended at lines 92-95. -/
def cookieHint : String :=
  "\n\nこの動画はYouTubeのアプリ限定コンテンツです。\ncookies.txt を使用してログイン状態を反映するとダウンロード可能になる場合があります。"

/-- Lines 90-95: augment the exception text when it mentions the app-limited
content marker. -/
def pyAugment (e : String) : String :=
  if pyContains e appLimitedMarker then e ++ cookieHint else e

/-- The per-item error result string appended at line 96. -/
def errResult (url e : String) : String :=
  "URL: " ++ url ++ " でエラー発生: " ++ pyAugment e

/-- The `self.log` call of the except branch (line 97). -/
def errEvents (cfg : Config) (url e : String) : List Event :=
  logEv cfg ("ERROR: URL " ++ url ++ " - " ++ pyAugment e)

/-- Lines 64-65: `cookiefile` enters the options iff `self.cookies_file` is
truthy and `os.path.exists` says the file is there. -/
def cookieOpt (cfg : Config) : Option String :=
  match cfg.cookies_file with
  | none => none
  | some p => if p = "" then none else if cfg.fsExists p then some p else none

/-- The `outtmpl` option (line 57): Python's conditional tests the
truthiness of `filename`. -/
def outtmplOf (cfg : Config) (filename : Option String) : String :=
  if pyTruthy filename then
    pathJoin cfg.output_dir (filename.getD "" ++ ".%(ext)s")
  else
    pathJoin cfg.output_dir "%(title)s.%(ext)s"

/-- The options dict `ydl_opts` of lines 55-65 for one task. -/
def mkOpts (cfg : Config) (t : DlTask) : YdlOpts where
  format := "bestvideo+bestaudio/best"
  outtmpl := outtmplOf cfg t.filename
  merge_output_format := "mp4"
  noplaylist := true
  quiet := true
  cookiefile := cookieOpt cfg

/-- Line 69, `title = filename or info.get('title', 'output')`. -/
def titleOf (t : DlTask) (info : Info) : String :=
  pyOr t.filename (info.title.getD "output")

/-- The body of one `for idx, (url, filename) in enumerate(self.tasks, 1)`
iteration (lines 42-97), inside its `try`: the events it produces and the
string it appends to `results`.  An exception from `extract_info` or from
launching ffmpeg lands in the `except` branch (lines 89-97). -/
def processItem (cfg : Config) (n idx : Nat) (t : DlTask) (b : ItemBehavior) :
    List Event × String :=
  let callEv := Event.dlCall t.url (mkOpts cfg t)
  let hookEvs := (b.hookEvents.map (hookRun cfg t.filename idx n)).flatten
  match b.dlResult with
  | Except.error e =>
      (callEv :: hookEvs ++ errEvents cfg t.url e, errResult t.url e)
  | Except.ok info =>
      let title := titleOf t info
      let mp4_file := pathJoin cfg.output_dir (title ++ ".mp4")
      if cfg.to_mp3 then
        let mp3_file := pathJoin cfg.output_dir (title ++ ".mp3")
        match b.ffmpegResult with
        | Except.error e =>
            (callEv :: hookEvs ++ Event.ffmpegCall (ffmpegCmd mp4_file mp3_file)
                :: errEvents cfg t.url e,
             errResult t.url e)
        | Except.ok outLines =>
            (callEv :: hookEvs ++ Event.ffmpegCall (ffmpegCmd mp4_file mp3_file)
                :: convTrace cfg title idx n outLines,
             mp4_file ++ (if mp3_file = "" then "" else "\n" ++ mp3_file))
      else
        (callEv :: hookEvs, mp4_file)

/-- The result string one item contributes to `results`. -/
def itemResult (cfg : Config) (n idx : Nat) (t : DlTask) (b : ItemBehavior) : String :=
  (processItem cfg n idx t b).2

/-- The `for` loop of lines 42-97, starting at 1-based index `idx`; the
oracle `env` gives the external behaviour met at each 1-based index. -/
def runFrom (cfg : Config) (n : Nat) (env : Nat → ItemBehavior) (idx : Nat) :
    List DlTask → List Event × List String
  | [] => ([], [])
  | t :: ts =>
      let p := processItem cfg n idx t (env idx)
      let rest := runFrom cfg n env (idx + 1) ts
      (p.1 ++ rest.1, p.2 :: rest.2)

/-- All events of the loop body over the whole task list. -/
def itemEvents (cfg : Config) (tasks : List DlTask) (env : Nat → ItemBehavior) :
    List Event :=
  (runFrom cfg tasks.length env 1 tasks).1

/-- The `results` list as it stands at line 99. -/
def resultsOf (cfg : Config) (tasks : List DlTask) (env : Nat → ItemBehavior) :
    List String :=
  (runFrom cfg tasks.length env 1 tasks).2

/-- Model of `DownloadThread.run` (lines 38-99): `os.makedirs`, the loop, then the
single `finished_signal.emit(results)`. -/
def runWorker (cfg : Config) (tasks : List DlTask) (env : Nat → ItemBehavior) :
    List Event :=
  Event.mkdir cfg.output_dir
    :: itemEvents cfg tasks env ++ [Event.finished (resultsOf cfg tasks env)]

/-- Lines 175-177: split a line at its first comma, strip both parts, no
filename when the line has no comma. -/
def parseTaskLine (line : String) : DlTask :=
  match pySplit1 line with
  | [u] => { url := pyStrip u, filename := none }
  | u :: f :: _ => { url := pyStrip u, filename := some (pyStrip f) }
  | [] => { url := pyStrip line, filename := none }

/-- Lines 171-178: keep the lines whose `strip()` is non-empty, parse each. -/
def buildTasks (lines : List String) : List DlTask :=
  (lines.filter (fun l => decide (pyStrip l ≠ ""))).map parseTaskLine

/-- Model of the `start_download` task construction (lines 165-178): error dialog and
early return when the text box splits into no lines at all, otherwise the
task list the worker is started with. -/
def start_download (text : String) : Except String (List DlTask) :=
  let lines := pySplitlines text
  if lines.isEmpty then Except.error "URLを入力してください"
  else Except.ok (buildTasks lines)

/-- Model of `create_logger` (lines 14-18): the per-run log path built from the
timestamp taken at creation. -/
def create_logger_path (timestamp : String) : String :=
  pathJoin "logs" (timestamp ++ ".log")

/-- The line `download_finished` appends to the log (line 208). -/
def finishMarker : String :=
  "\n=== 完了 ===\n"

/-- Model of `download_finished(results)` (lines 206-210): append the completion
marker to the per-run log, then show the joined results. -/
def download_finished_events (results : List String) : List Event :=
  [Event.logRaw finishMarker,
   Event.showInfo "完了" (String.intercalate "\n\n" results)]

/-- One whole run at application level: `create_logger` at startup
(lines 14-18, 107), the worker, and the `download_finished` slot the
`finished_signal` triggers (lines 197, 206-210). -/
def appRun (cfg : Config) (tasks : List DlTask) (env : Nat → ItemBehavior)
    (timestamp : String) : List Event :=
  Event.mkdir "logs" :: Event.createLog (create_logger_path timestamp)
    :: runWorker cfg tasks env
    ++ download_finished_events (resultsOf cfg tasks env)

/-- Projection of a trace to the `ydl.extract_info` calls it contains. -/
def dlCallPairs (evs : List Event) : List (String × YdlOpts) :=
  evs.filterMap (fun e =>
    match e with
    | Event.dlCall u o => some (u, o)
    | _ => none)

/-- Projection of a trace to the URLs of its `ydl.extract_info` calls. -/
def dlCallUrls (evs : List Event) : List String :=
  (dlCallPairs evs).map Prod.fst

/-- Projection of a trace to the payloads of its `finished_signal` emissions. -/
def finishedPayloads (evs : List Event) : List (List String) :=
  evs.filterMap (fun e =>
    match e with
    | Event.finished rs => some rs
    | _ => none)

/-- The event kinds the loop body of `run` can produce. -/
def isLoopEvent : Event → Bool
  | Event.dlCall _ _ => true
  | Event.progress _ _ => true
  | Event.log _ => true
  | Event.ffmpegCall _ => true
  | _ => false

/-- The same configuration with no cookies file supplied. -/
def noCookies (cfg : Config) : Config :=
  { cfg with cookies_file := none }

/-- Concrete configuration used by witnesses and counterexamples. -/
def cfgW : Config :=
  { output_dir := "out", to_mp3 := false, cookies_file := none, hasLog := true,
    fsExists := fun _ => false }

/-- Concrete task used by witnesses and counterexamples. -/
def taskW : DlTask := { url := "u", filename := some "vid" }

/-- Concrete well-behaved oracle used by witnesses. -/
def envW : Nat → ItemBehavior := fun _ =>
  { hookEvents := [{ status := "downloading", downloaded_bytes := 20, total_bytes := some 100 }],
    dlResult := Except.ok { title := some "T" },
    ffmpegResult := Except.ok ["frame time=00:01", "other"] }

/-- Concrete failing oracle used by witnesses. -/
def envErr : Nat → ItemBehavior := fun _ =>
  { hookEvents := [],
    dlResult := Except.error "boom",
    ffmpegResult := Except.ok [] }

/-- The progress event one `time=` stdout line triggers (line 80). -/
def convProgressEvent (title : String) (idx n : Nat) : Event :=
  Event.progress 50 ("Converting " ++ title ++ " to MP3" ++ itemTag idx n)

/-- Concrete configuration with mp3 conversion enabled, for witnesses. -/
def cfgM : Config :=
  { output_dir := "out", to_mp3 := true, cookies_file := none, hasLog := true,
    fsExists := fun _ => false }

/-- Oracle whose downloader reports more downloaded bytes than the total
(no `total_bytes` key, so the hook divides by the default 1). -/
def envBad : Nat → ItemBehavior := fun _ =>
  { hookEvents := [{ status := "downloading", downloaded_bytes := 200, total_bytes := none }],
    dlResult := Except.ok { title := some "T" },
    ffmpegResult := Except.ok [] }

/-- Concrete configuration supplying a cookies path that does not exist. -/
def cfgCk : Config :=
  { output_dir := "out", to_mp3 := false, cookies_file := some "cookies.txt",
    hasLog := true, fsExists := fun _ => false }

/-! ### Basic facts about the trace pieces -/

theorem data_ne_nil_of_ne_empty {s : String} (h : s ≠ "") : s.data ≠ [] := by
  intro hd
  exact h (String.ext (hd.trans rfl))

theorem ne_empty_of_data_ne_nil {s : String} (h : s.data ≠ []) : s ≠ "" := by
  intro he
  rw [he] at h
  exact h rfl

theorem pathJoin_ne_empty (dir : String) {name : String} (h : name ≠ "") :
    pathJoin dir name ≠ "" := by
  unfold pathJoin
  split
  · exact h
  · split <;>
      (apply ne_empty_of_data_ne_nil
       rw [String.data_append]
       simp [data_ne_nil_of_ne_empty h])

theorem logEv_loopEvent (cfg : Config) (m : String) :
    ∀ e ∈ logEv cfg m, isLoopEvent e = true := by
  intro e he
  unfold logEv at he
  split at he
  · simp at he
    subst he
    rfl
  · simp at he

theorem hookRun_loopEvent (cfg : Config) (f : Option String) (idx n : Nat) (ev : HookEvent) :
    ∀ e ∈ hookRun cfg f idx n ev, isLoopEvent e = true := by
  intro e he
  unfold hookRun at he
  split at he
  · rcases List.mem_cons.1 he with h | h
    · subst h; rfl
    · exact logEv_loopEvent cfg _ e h
  · split at he
    · rcases List.mem_cons.1 he with h | h
      · subst h; rfl
      · exact logEv_loopEvent cfg _ e h
    · simp at he

theorem convLineEvents_loopEvent (cfg : Config) (title : String) (idx n : Nat) (line : String) :
    ∀ e ∈ convLineEvents cfg title idx n line, isLoopEvent e = true := by
  intro e he
  unfold convLineEvents at he
  split at he
  · rcases List.mem_cons.1 he with h | h
    · subst h; rfl
    · exact logEv_loopEvent cfg _ e h
  · simp at he

theorem convTrace_loopEvent (cfg : Config) (title : String) (idx n : Nat) (ls : List String) :
    ∀ e ∈ convTrace cfg title idx n ls, isLoopEvent e = true := by
  intro e he
  unfold convTrace at he
  rcases List.mem_append.1 he with h | h
  · rcases List.mem_flatten.1 h with ⟨l, hl, hel⟩
    rcases List.mem_map.1 hl with ⟨line, _, rfl⟩
    exact convLineEvents_loopEvent cfg title idx n line e hel
  · rcases List.mem_cons.1 h with h2 | h2
    · subst h2; rfl
    · exact logEv_loopEvent cfg _ e h2

theorem errEvents_loopEvent (cfg : Config) (u m : String) :
    ∀ e ∈ errEvents cfg u m, isLoopEvent e = true := by
  intro e he
  exact logEv_loopEvent cfg _ e he

theorem processItem_loopEvent (cfg : Config) (n idx : Nat) (t : DlTask) (b : ItemBehavior) :
    ∀ e ∈ (processItem cfg n idx t b).1, isLoopEvent e = true := by
  intro e he
  unfold processItem at he
  have hooks : ∀ e2 ∈ (b.hookEvents.map (hookRun cfg t.filename idx n)).flatten,
      isLoopEvent e2 = true := by
    intro e2 he2
    rcases List.mem_flatten.1 he2 with ⟨l, hl, hel⟩
    rcases List.mem_map.1 hl with ⟨hev, _, rfl⟩
    exact hookRun_loopEvent cfg t.filename idx n hev e2 hel
  rcases hb : b.dlResult with e0 | info
  · rw [hb] at he
    simp only at he
    rcases List.mem_cons.1 he with h | h
    · subst h; rfl
    · rcases List.mem_append.1 h with h2 | h2
      · exact hooks e h2
      · exact errEvents_loopEvent cfg _ _ e h2
  · rw [hb] at he
    simp only at he
    by_cases hm : cfg.to_mp3
    · rw [if_pos hm] at he
      rcases hf : b.ffmpegResult with e0 | outLines
      · rw [hf] at he
        rcases List.mem_cons.1 he with h | h
        · subst h; rfl
        · rcases List.mem_append.1 h with h2 | h2
          · exact hooks e h2
          · rcases List.mem_cons.1 h2 with h3 | h3
            · subst h3; rfl
            · exact errEvents_loopEvent cfg _ _ e h3
      · rw [hf] at he
        rcases List.mem_cons.1 he with h | h
        · subst h; rfl
        · rcases List.mem_append.1 h with h2 | h2
          · exact hooks e h2
          · rcases List.mem_cons.1 h2 with h3 | h3
            · subst h3; rfl
            · exact convTrace_loopEvent cfg _ idx n _ e h3
    · rw [if_neg hm] at he
      rcases List.mem_cons.1 he with h | h
      · subst h; rfl
      · exact hooks e h

theorem runFrom_loopEvent (cfg : Config) (n : Nat) (env : Nat → ItemBehavior) :
    ∀ ts idx, ∀ e ∈ (runFrom cfg n env idx ts).1, isLoopEvent e = true := by
  intro ts
  induction ts with
  | nil => intro idx e he; simp [runFrom] at he
  | cons t ts ih =>
    intro idx e he
    unfold runFrom at he
    rcases List.mem_append.1 he with h | h
    · exact processItem_loopEvent cfg n idx t (env idx) e h
    · exact ih (idx + 1) e h

theorem itemEvents_loopEvent (cfg : Config) (tasks : List DlTask) (env : Nat → ItemBehavior) :
    ∀ e ∈ itemEvents cfg tasks env, isLoopEvent e = true :=
  runFrom_loopEvent cfg tasks.length env tasks 1

theorem dlCallPairs_append (a b : List Event) :
    dlCallPairs (a ++ b) = dlCallPairs a ++ dlCallPairs b :=
  List.filterMap_append a b _

theorem dlCallPairs_eq_nil_of_loopFree (evs : List Event)
    (h : ∀ e ∈ evs, isLoopEvent e = true → (∀ u o, e ≠ Event.dlCall u o)) :
    dlCallPairs evs = [] := by
  unfold dlCallPairs
  rw [List.filterMap_eq_nil_iff]
  intro e he
  rcases e with _ | _ | _ | _ | _ | _ | _ | _ | _ <;> simp
  rename_i u o
  exact absurd rfl (h (Event.dlCall u o) he rfl u o)

theorem dlCallPairs_logEv (cfg : Config) (m : String) : dlCallPairs (logEv cfg m) = [] := by
  unfold logEv
  split <;> rfl

theorem dlCallPairs_hookRun (cfg : Config) (f : Option String) (idx n : Nat) (ev : HookEvent) :
    dlCallPairs (hookRun cfg f idx n ev) = [] := by
  unfold hookRun
  split
  · simp [dlCallPairs, List.filterMap_cons]
    have := dlCallPairs_logEv cfg ("Downloading " ++ dispName f ++ itemTag idx n)
    simpa [dlCallPairs] using this
  · split
    · simp [dlCallPairs, List.filterMap_cons]
      have := dlCallPairs_logEv cfg ("Download finished: " ++ dispName f ++ itemTag idx n)
      simpa [dlCallPairs] using this
    · rfl

theorem dlCallPairs_hooks (cfg : Config) (f : Option String) (idx n : Nat)
    (hs : List HookEvent) :
    dlCallPairs ((hs.map (hookRun cfg f idx n)).flatten) = [] := by
  unfold dlCallPairs
  rw [List.filterMap_flatten]
  rw [List.flatten_eq_nil_iff]
  intro l hl
  rw [List.map_map] at hl
  rcases List.mem_map.1 hl with ⟨hev, _, rfl⟩
  exact dlCallPairs_hookRun cfg f idx n hev

theorem dlCallPairs_convTrace (cfg : Config) (title : String) (idx n : Nat)
    (ls : List String) :
    dlCallPairs (convTrace cfg title idx n ls) = [] := by
  unfold convTrace
  rw [dlCallPairs_append]
  have h1 : dlCallPairs ((ls.map (convLineEvents cfg title idx n)).flatten) = [] := by
    unfold dlCallPairs
    rw [List.filterMap_flatten, List.flatten_eq_nil_iff]
    intro l hl
    rw [List.map_map] at hl
    rcases List.mem_map.1 hl with ⟨line, _, rfl⟩
    simp only [Function.comp]
    unfold convLineEvents
    split
    · simp [List.filterMap_cons]
      have := dlCallPairs_logEv cfg ("Converting " ++ title ++ " to MP3" ++ itemTag idx n)
      simpa [dlCallPairs] using this
    · rfl
  rw [h1]
  simp [dlCallPairs, List.filterMap_cons]
  have := dlCallPairs_logEv cfg ("Conversion finished: " ++ title)
  simpa [dlCallPairs] using this

theorem dlCallPairs_cons_dlCall (u : String) (o : YdlOpts) (l : List Event) :
    dlCallPairs (Event.dlCall u o :: l) = (u, o) :: dlCallPairs l := by
  simp [dlCallPairs, List.filterMap_cons]

theorem dlCallPairs_cons_ffmpegCall (cmd : List String) (l : List Event) :
    dlCallPairs (Event.ffmpegCall cmd :: l) = dlCallPairs l := by
  simp [dlCallPairs, List.filterMap_cons]

theorem dlCallPairs_errEvents (cfg : Config) (u m : String) :
    dlCallPairs (errEvents cfg u m) = [] :=
  dlCallPairs_logEv cfg _

theorem dlCallPairs_processItem (cfg : Config) (n idx : Nat) (t : DlTask) (b : ItemBehavior) :
    dlCallPairs (processItem cfg n idx t b).1 = [(t.url, mkOpts cfg t)] := by
  unfold processItem
  rcases b.dlResult with e | info
  · dsimp only
    rw [dlCallPairs_append, dlCallPairs_cons_dlCall,
      dlCallPairs_hooks, dlCallPairs_errEvents, List.append_nil]
  · dsimp only
    by_cases hm : cfg.to_mp3
    · rw [if_pos hm]
      rcases b.ffmpegResult with e | outLines <;> dsimp only
      · rw [dlCallPairs_append, dlCallPairs_cons_dlCall, dlCallPairs_hooks,
          dlCallPairs_cons_ffmpegCall, dlCallPairs_errEvents, List.append_nil]
      · rw [dlCallPairs_append, dlCallPairs_cons_dlCall, dlCallPairs_hooks,
          dlCallPairs_cons_ffmpegCall, dlCallPairs_convTrace, List.append_nil]
    · rw [if_neg hm]
      rw [dlCallPairs_cons_dlCall, dlCallPairs_hooks]

theorem dlCallPairs_runFrom (cfg : Config) (n : Nat) (env : Nat → ItemBehavior) :
    ∀ ts idx, dlCallPairs (runFrom cfg n env idx ts).1
      = ts.map (fun t => (t.url, mkOpts cfg t)) := by
  intro ts
  induction ts with
  | nil => intro idx; rfl
  | cons t ts ih =>
    intro idx
    unfold runFrom
    dsimp only
    rw [dlCallPairs_append, dlCallPairs_processItem, ih (idx + 1), List.map_cons]
    rfl

theorem dlCallPairs_runWorker (cfg : Config) (tasks : List DlTask)
    (env : Nat → ItemBehavior) :
    dlCallPairs (runWorker cfg tasks env) = tasks.map (fun t => (t.url, mkOpts cfg t)) := by
  unfold runWorker
  have h1 : dlCallPairs (Event.mkdir cfg.output_dir
      :: itemEvents cfg tasks env ++ [Event.finished (resultsOf cfg tasks env)])
      = dlCallPairs (itemEvents cfg tasks env) := by
    simp [dlCallPairs, List.filterMap_cons, List.filterMap_append]
  rw [h1]
  exact dlCallPairs_runFrom cfg tasks.length env tasks 1

theorem runFrom_snd_length (cfg : Config) (n : Nat) (env : Nat → ItemBehavior) :
    ∀ ts idx, ((runFrom cfg n env idx ts).2).length = ts.length := by
  intro ts
  induction ts with
  | nil => intro idx; rfl
  | cons t ts ih =>
    intro idx
    unfold runFrom
    dsimp only
    rw [List.length_cons, ih (idx + 1)]
    rfl

theorem runFrom_snd_get (cfg : Config) (n : Nat) (env : Nat → ItemBehavior) :
    ∀ ts idx i, ((runFrom cfg n env idx ts).2)[i]?
      = (ts[i]?).map (fun t => itemResult cfg n (idx + i) t (env (idx + i))) := by
  intro ts
  induction ts with
  | nil => intro idx i; simp [runFrom]
  | cons t ts ih =>
    intro idx i
    unfold runFrom
    dsimp only
    cases i with
    | zero => simp [itemResult]
    | succ j =>
      simp only [List.getElem?_cons_succ]
      rw [ih (idx + 1) j]
      have harith : idx + 1 + j = idx + (j + 1) := by omega
      rw [harith]

theorem finishedPayloads_eq_nil (evs : List Event)
    (h : ∀ e ∈ evs, isLoopEvent e = true) :
    finishedPayloads evs = [] := by
  unfold finishedPayloads
  rw [List.filterMap_eq_nil_iff]
  intro e he
  have hl := h e he
  rcases e with _ | _ | _ | _ | _ | rs | _ | _ | _ <;> simp
  exact absurd hl (by simp [isLoopEvent])

theorem finishedPayloads_runWorker (cfg : Config) (tasks : List DlTask)
    (env : Nat → ItemBehavior) :
    finishedPayloads (runWorker cfg tasks env) = [resultsOf cfg tasks env] := by
  unfold runWorker
  have h1 : finishedPayloads (itemEvents cfg tasks env) = [] :=
    finishedPayloads_eq_nil _ (itemEvents_loopEvent cfg tasks env)
  unfold finishedPayloads at h1 ⊢
  simp [List.filterMap_cons, List.filterMap_append, h1]

theorem runWorker_getLast (cfg : Config) (tasks : List DlTask) (env : Nat → ItemBehavior) :
    (runWorker cfg tasks env).getLast? = some (Event.finished (resultsOf cfg tasks env)) := by
  unfold runWorker
  rw [show Event.mkdir cfg.output_dir
      :: itemEvents cfg tasks env ++ [Event.finished (resultsOf cfg tasks env)]
      = (Event.mkdir cfg.output_dir :: itemEvents cfg tasks env)
        ++ [Event.finished (resultsOf cfg tasks env)] from rfl]
  rw [List.getLast?_concat]

theorem itemResult_dlError (cfg : Config) (n idx : Nat) (t : DlTask) (b : ItemBehavior)
    (e : String) (hb : b.dlResult = Except.error e) :
    itemResult cfg n idx t b = errResult t.url e := by
  unfold itemResult processItem
  rw [hb]

theorem itemResult_ffmpegError (cfg : Config) (n idx : Nat) (t : DlTask) (b : ItemBehavior)
    (info : Info) (e : String) (hb : b.dlResult = Except.ok info)
    (hm : cfg.to_mp3 = true) (hf : b.ffmpegResult = Except.error e) :
    itemResult cfg n idx t b = errResult t.url e := by
  unfold itemResult processItem
  rw [hb]
  dsimp only
  rw [if_pos hm, hf]

theorem itemResult_ok_noMp3 (cfg : Config) (n idx : Nat) (t : DlTask) (b : ItemBehavior)
    (info : Info) (hb : b.dlResult = Except.ok info) (hm : cfg.to_mp3 = false) :
    itemResult cfg n idx t b = pathJoin cfg.output_dir (titleOf t info ++ ".mp4") := by
  unfold itemResult processItem
  rw [hb]
  dsimp only
  rw [if_neg (by rw [hm]; exact Bool.false_ne_true)]

theorem mp3_path_ne_empty (cfg : Config) (title : String) :
    pathJoin cfg.output_dir (title ++ ".mp3") ≠ "" := by
  apply pathJoin_ne_empty
  apply ne_empty_of_data_ne_nil
  rw [String.data_append]
  simp [data_ne_nil_of_ne_empty (show (".mp3" : String) ≠ "" by decide)]

theorem itemResult_ok_mp3 (cfg : Config) (n idx : Nat) (t : DlTask) (b : ItemBehavior)
    (info : Info) (outLines : List String) (hb : b.dlResult = Except.ok info)
    (hm : cfg.to_mp3 = true) (hf : b.ffmpegResult = Except.ok outLines) :
    itemResult cfg n idx t b
      = pathJoin cfg.output_dir (titleOf t info ++ ".mp4") ++ "\n"
        ++ pathJoin cfg.output_dir (titleOf t info ++ ".mp3") := by
  unfold itemResult processItem
  rw [hb]
  dsimp only
  rw [if_pos hm, hf]
  dsimp only
  rw [if_neg (mp3_path_ne_empty cfg (titleOf t info))]
  rw [String.append_assoc]

/-- C1: `DownloadThread.run` emits the finished notification exactly once and
as the last event of the run; its payload has exactly one result string per
input task, in task order; an item whose download succeeds contributes the
output video path (with the audio path appended after a newline when mp3
conversion was requested), and a failing item contributes the error text. -/
theorem finished_once_ordered_results (cfg : Config) (tasks : List DlTask)
    (env : Nat → ItemBehavior) :
    finishedPayloads (runWorker cfg tasks env) = [resultsOf cfg tasks env]
    ∧ (runWorker cfg tasks env).getLast? = some (Event.finished (resultsOf cfg tasks env))
    ∧ (resultsOf cfg tasks env).length = tasks.length
    ∧ (∀ i : Nat, (resultsOf cfg tasks env)[i]?
        = (tasks[i]?).map (fun t => itemResult cfg tasks.length (1 + i) t (env (1 + i))))
    ∧ (∀ n idx t b e, b.dlResult = Except.error e →
        itemResult cfg n idx t b = errResult t.url e)
    ∧ (∀ n idx t b info, b.dlResult = Except.ok info → cfg.to_mp3 = false →
        itemResult cfg n idx t b = pathJoin cfg.output_dir (titleOf t info ++ ".mp4"))
    ∧ (∀ n idx t b info outLines, b.dlResult = Except.ok info → cfg.to_mp3 = true →
        b.ffmpegResult = Except.ok outLines →
        itemResult cfg n idx t b
          = pathJoin cfg.output_dir (titleOf t info ++ ".mp4") ++ "\n"
            ++ pathJoin cfg.output_dir (titleOf t info ++ ".mp3")) := by
  refine ⟨finishedPayloads_runWorker cfg tasks env, runWorker_getLast cfg tasks env,
    runFrom_snd_length cfg tasks.length env tasks 1, ?_, ?_, ?_, ?_⟩
  · intro i
    exact runFrom_snd_get cfg tasks.length env tasks 1 i
  · intro n idx t b e hb
    exact itemResult_dlError cfg n idx t b e hb
  · intro n idx t b info hb hm
    exact itemResult_ok_noMp3 cfg n idx t b info hb hm
  · intro n idx t b info outLines hb hm hf
    exact itemResult_ok_mp3 cfg n idx t b info outLines hb hm hf

theorem finished_once_ordered_results_witness :
    itemResult cfgW 1 1 taskW (envErr 1) = errResult taskW.url "boom" :=
  (finished_once_ordered_results cfgW [taskW] envErr).2.2.2.2.1
    1 1 taskW (envErr 1) "boom" rfl

/-- C3: the task list is processed sequentially in list order and the
external download function is invoked exactly once per item: the sequence of
`extract_info` call URLs in the run's trace is exactly the task list's URL
sequence — no retry, no skip, no reorder. -/
theorem downloader_called_once_per_task_in_order (cfg : Config) (tasks : List DlTask)
    (env : Nat → ItemBehavior) :
    dlCallUrls (runWorker cfg tasks env) = tasks.map DlTask.url := by
  unfold dlCallUrls
  rw [dlCallPairs_runWorker, List.map_map]
  rfl

theorem errLog_mem_logEv (cfg : Config) (m : String) (hlog : cfg.hasLog = true) :
    Event.log m ∈ logEv cfg m := by
  unfold logEv
  rw [if_pos hlog]
  exact List.mem_singleton.2 rfl

/-- C2: an exception while processing one task is caught inside the loop:
the item's result string is error text carrying the URL, the error is
written to the log, and the loop goes on with the remaining tasks unchanged
— this holds both for a download exception and for an ffmpeg exception. -/
theorem item_exception_caught_run_continues (cfg : Config) (n idx : Nat)
    (t : DlTask) (b : ItemBehavior) (e : String) (hlog : cfg.hasLog = true) :
    (b.dlResult = Except.error e →
       itemResult cfg n idx t b = "URL: " ++ t.url ++ " でエラー発生: " ++ pyAugment e
       ∧ Event.log ("ERROR: URL " ++ t.url ++ " - " ++ pyAugment e)
           ∈ (processItem cfg n idx t b).1)
    ∧ (∀ info, b.dlResult = Except.ok info → cfg.to_mp3 = true →
        b.ffmpegResult = Except.error e →
       itemResult cfg n idx t b = "URL: " ++ t.url ++ " でエラー発生: " ++ pyAugment e
       ∧ Event.log ("ERROR: URL " ++ t.url ++ " - " ++ pyAugment e)
           ∈ (processItem cfg n idx t b).1)
    ∧ (∀ ts env2, env2 idx = b →
        (runFrom cfg n env2 idx (t :: ts)).2
          = itemResult cfg n idx t b :: (runFrom cfg n env2 (idx + 1) ts).2
        ∧ (runFrom cfg n env2 idx (t :: ts)).1
          = (processItem cfg n idx t b).1 ++ (runFrom cfg n env2 (idx + 1) ts).1) := by
  refine ⟨?_, ?_, ?_⟩
  · intro hb
    constructor
    · rw [itemResult_dlError cfg n idx t b e hb]
      rfl
    · unfold processItem
      rw [hb]
      dsimp only
      exact List.mem_append_right _ (errLog_mem_logEv cfg _ hlog)
  · intro info hb hm hf
    constructor
    · rw [itemResult_ffmpegError cfg n idx t b info e hb hm hf]
      rfl
    · unfold processItem
      rw [hb]
      dsimp only
      rw [if_pos hm, hf]
      exact List.mem_append_right _
        (List.mem_cons_of_mem _ (errLog_mem_logEv cfg _ hlog))
  · intro ts env2 henv
    have hstep : runFrom cfg n env2 idx (t :: ts)
        = ((processItem cfg n idx t (env2 idx)).1 ++ (runFrom cfg n env2 (idx + 1) ts).1,
           (processItem cfg n idx t (env2 idx)).2 :: (runFrom cfg n env2 (idx + 1) ts).2) :=
      rfl
    rw [hstep, henv]
    exact ⟨rfl, rfl⟩

theorem item_exception_caught_run_continues_witness :
    itemResult cfgW 1 1 taskW (envErr 1)
      = "URL: " ++ taskW.url ++ " でエラー発生: " ++ pyAugment "boom"
    ∧ Event.log ("ERROR: URL " ++ taskW.url ++ " - " ++ pyAugment "boom")
        ∈ (processItem cfgW 1 1 taskW (envErr 1)).1 :=
  (item_exception_caught_run_continues cfgW 1 1 taskW (envErr 1) "boom" rfl).1 rfl

theorem takeWhile_comma_append (l1 l2 : List Char) (h : ∀ c ∈ l1, c ≠ ',') :
    (l1 ++ ',' :: l2).takeWhile (fun c => decide (c ≠ ',')) = l1 := by
  induction l1 with
  | nil =>
    rw [List.nil_append, List.takeWhile_cons]
    simp
  | cons a as ih =>
    rw [List.cons_append, List.takeWhile_cons,
      if_pos (decide_eq_true (h a (List.mem_cons_self a as))),
      ih (fun c hc => h c (List.mem_cons_of_mem a hc))]

theorem dropWhile_comma_append (l1 l2 : List Char) (h : ∀ c ∈ l1, c ≠ ',') :
    (l1 ++ ',' :: l2).dropWhile (fun c => decide (c ≠ ',')) = ',' :: l2 := by
  induction l1 with
  | nil =>
    rw [List.nil_append, List.dropWhile_cons]
    simp
  | cons a as ih =>
    rw [List.cons_append, List.dropWhile_cons,
      if_pos (decide_eq_true (h a (List.mem_cons_self a as))),
      ih (fun c hc => h c (List.mem_cons_of_mem a hc))]

theorem parseTaskLine_no_comma (line : String) (h : ',' ∉ line.data) :
    parseTaskLine line = { url := pyStrip line, filename := none } := by
  unfold parseTaskLine pySplit1
  have hd : line.data.dropWhile (fun c => decide (c ≠ ',')) = [] :=
    List.dropWhile_eq_nil_iff.2 (fun x hx => decide_eq_true (fun he => h (he ▸ hx)))
  have ht : line.data.takeWhile (fun c => decide (c ≠ ',')) = line.data :=
    List.takeWhile_eq_self_iff.2 (fun x hx => decide_eq_true (fun he => h (he ▸ hx)))
  rw [hd, ht]

theorem parseTaskLine_first_comma (a b : String) (h : ',' ∉ a.data) :
    parseTaskLine (a ++ "," ++ b) = { url := pyStrip a, filename := some (pyStrip b) } := by
  unfold parseTaskLine pySplit1
  have hdata : (a ++ "," ++ b).data = a.data ++ ',' :: b.data := by
    rw [String.data_append, String.data_append, List.append_assoc]
    rfl
  have hcs : ∀ c ∈ a.data, c ≠ ',' := fun c hc he => h (he ▸ hc)
  rw [hdata, dropWhile_comma_append a.data b.data hcs, takeWhile_comma_append a.data b.data hcs]

theorem line_first_comma_decomp (line : String) (h : ',' ∈ line.data) :
    ∃ a b : String, line = a ++ "," ++ b ∧ ',' ∉ a.data := by
  have hne : line.data.dropWhile (fun c => decide (c ≠ ',')) ≠ [] := by
    intro h0
    have := List.dropWhile_eq_nil_iff.1 h0 ',' h
    simp at this
  refine ⟨String.mk (line.data.takeWhile (fun c => decide (c ≠ ','))),
    String.mk ((line.data.dropWhile (fun c => decide (c ≠ ','))).tail), ?_, ?_⟩
  · apply String.ext
    rw [String.data_append, String.data_append, List.append_assoc]
    have hhead : (line.data.dropWhile (fun c => decide (c ≠ ','))).head hne = ',' := by
      have := List.head_dropWhile_not (fun c => decide (c ≠ ',')) line.data hne
      simpa using this
    calc line.data
        = line.data.takeWhile (fun c => decide (c ≠ ','))
            ++ line.data.dropWhile (fun c => decide (c ≠ ',')) :=
          (List.takeWhile_append_dropWhile _ _).symm
      _ = line.data.takeWhile (fun c => decide (c ≠ ','))
            ++ ((line.data.dropWhile (fun c => decide (c ≠ ','))).head hne
                :: (line.data.dropWhile (fun c => decide (c ≠ ','))).tail) := by
          rw [List.head_cons_tail]
      _ = _ := by rw [hhead]; rfl
  · intro hc
    have := List.mem_takeWhile_imp hc
    simp at this

theorem splitlinesAux_ne_nil : ∀ (l acc : List Char), splitlinesAux acc l ≠ [] := by
  intro l
  induction l with
  | nil => intro acc; simp [splitlinesAux]
  | cons c cs ih =>
    intro acc
    unfold splitlinesAux
    split
    · simp
    · exact ih (c :: acc)

theorem pySplitlines_ne_nil (text : String) (h : text ≠ "") : pySplitlines text ≠ [] := by
  unfold pySplitlines
  have hd := data_ne_nil_of_ne_empty h
  cases hdata : text.data with
  | nil => exact absurd hdata hd
  | cons c cs => exact splitlinesAux_ne_nil (c :: cs) []

/-- C4: `start_download` builds the task list by splitting the text into
lines, dropping whitespace-only lines, and splitting each kept line at its
first comma only: the stripped part before the comma is the URL, the
stripped part after it the output name, and a line with no comma yields a
task with no name. -/
theorem start_download_line_parsing (text : String) (h : text ≠ "") :
    start_download text = Except.ok (buildTasks (pySplitlines text))
    ∧ buildTasks (pySplitlines text)
        = ((pySplitlines text).filter (fun l => decide (pyStrip l ≠ ""))).map parseTaskLine
    ∧ (∀ line : String, ',' ∉ line.data →
        parseTaskLine line = { url := pyStrip line, filename := none })
    ∧ (∀ a b : String, ',' ∉ a.data →
        parseTaskLine (a ++ "," ++ b) = { url := pyStrip a, filename := some (pyStrip b) })
    ∧ (∀ line : String, ',' ∈ line.data →
        ∃ a b : String, line = a ++ "," ++ b ∧ ',' ∉ a.data) := by
  refine ⟨?_, rfl, parseTaskLine_no_comma, parseTaskLine_first_comma, line_first_comma_decomp⟩
  unfold start_download
  rw [if_neg (fun hemp => pySplitlines_ne_nil text h (List.isEmpty_iff.1 hemp))]

theorem start_download_line_parsing_witness :
    start_download "u1,n1\n\nu2" = Except.ok (buildTasks (pySplitlines "u1,n1\n\nu2"))
    ∧ parseTaskLine ("ab" ++ "," ++ " cd")
        = { url := pyStrip "ab", filename := some (pyStrip " cd") } :=
  ⟨(start_download_line_parsing "u1,n1\n\nu2" (by decide)).1,
   (start_download_line_parsing "u1,n1\n\nu2" (by decide)).2.2.2.1 "ab" " cd" (by decide)⟩

/-- C5 fails as stated: two items of the same run receive different options
maps, because `outtmpl` embeds the item's output name. -/
theorem ydl_opts_not_fixed_counterexample :
    Event.dlCall "u1" (mkOpts cfgW { url := "u1", filename := some "a" })
      ∈ runWorker cfgW
          [{ url := "u1", filename := some "a" }, { url := "u2", filename := none }] envW
    ∧ Event.dlCall "u2" (mkOpts cfgW { url := "u2", filename := none })
      ∈ runWorker cfgW
          [{ url := "u1", filename := some "a" }, { url := "u2", filename := none }] envW
    ∧ mkOpts cfgW { url := "u1", filename := some "a" }
        ≠ mkOpts cfgW { url := "u2", filename := none } :=
  ⟨by decide, by decide, by decide⟩

/-- C5 (amended): each `extract_info` call receives options whose `format`,
`merge_output_format`, `noplaylist` and `quiet` fields are fixed constants,
identical across items and runs; `outtmpl` depends on the run's output
directory and the item's output name (so items with equal names get equal
options within a run), and `cookiefile` depends on the run's cookies
configuration; the run's trace calls the downloader with exactly these
options for each task in order. -/
theorem ydl_opts_fixed_fields_amended (cfg cfg' : Config) (t t' : DlTask)
    (hf : t.filename = t'.filename) :
    (mkOpts cfg t).format = "bestvideo+bestaudio/best"
    ∧ (mkOpts cfg t).merge_output_format = "mp4"
    ∧ (mkOpts cfg t).noplaylist = true
    ∧ (mkOpts cfg t).quiet = true
    ∧ (mkOpts cfg t).format = (mkOpts cfg' t').format
    ∧ (mkOpts cfg t).merge_output_format = (mkOpts cfg' t').merge_output_format
    ∧ (mkOpts cfg t).noplaylist = (mkOpts cfg' t').noplaylist
    ∧ (mkOpts cfg t).quiet = (mkOpts cfg' t').quiet
    ∧ mkOpts cfg t = mkOpts cfg t'
    ∧ (∀ tasks env, dlCallPairs (runWorker cfg tasks env)
        = tasks.map (fun tk => (tk.url, mkOpts cfg tk))) := by
  refine ⟨rfl, rfl, rfl, rfl, rfl, rfl, rfl, rfl, ?_, dlCallPairs_runWorker cfg⟩
  unfold mkOpts outtmplOf
  rw [hf]

theorem ydl_opts_fixed_fields_amended_witness :
    mkOpts cfgW taskW = mkOpts cfgW { url := "other-url", filename := some "vid" } :=
  (ydl_opts_fixed_fields_amended cfgW cfgW taskW
    { url := "other-url", filename := some "vid" } rfl).2.2.2.2.2.2.2.2.1

theorem data_head_append (lit x : String) (c : Char) (h : lit.data.head? = some c) :
    (lit ++ x).data.head? = some c := by
  rw [String.data_append]
  cases hd : lit.data with
  | nil => rw [hd] at h; cases h
  | cons a as =>
    rw [hd] at h
    simpa using h

theorem string_ne_of_data_head_ne (s t : String) (c1 c2 : Char)
    (hs : s.data.head? = some c1) (ht : t.data.head? = some c2) (hne : c1 ≠ c2) :
    s ≠ t := by
  intro he
  rw [he] at hs
  exact hne (Option.some.inj (hs.symm.trans ht))

theorem downloading_msg_ne_conv (d tag ti tag2 : String) :
    ("Downloading " ++ d ++ tag) ≠ ("Converting " ++ ti ++ " to MP3" ++ tag2) := by
  apply string_ne_of_data_head_ne _ _ 'D' 'C'
  · exact data_head_append _ _ _ (data_head_append _ _ _ rfl)
  · exact data_head_append _ _ _ (data_head_append _ _ _ (data_head_append _ _ _ rfl))
  · decide

theorem dlfinished_msg_ne_conv (d tag ti tag2 : String) :
    ("Download finished: " ++ d ++ tag) ≠ ("Converting " ++ ti ++ " to MP3" ++ tag2) := by
  apply string_ne_of_data_head_ne _ _ 'D' 'C'
  · exact data_head_append _ _ _ (data_head_append _ _ _ rfl)
  · exact data_head_append _ _ _ (data_head_append _ _ _ (data_head_append _ _ _ rfl))
  · decide


theorem countP_conv_logEv (cfg : Config) (m title : String) (idx n : Nat) :
    (logEv cfg m).countP (fun ev => decide (ev = convProgressEvent title idx n)) = 0 := by
  unfold logEv
  split <;> simp [convProgressEvent]

theorem countP_conv_hookRun (cfg : Config) (f : Option String) (idx n idx2 n2 : Nat)
    (ev : HookEvent) (title : String) :
    (hookRun cfg f idx2 n2 ev).countP
      (fun e => decide (e = convProgressEvent title idx n)) = 0 := by
  unfold hookRun
  split
  · rw [List.countP_cons]
    rw [countP_conv_logEv]
    simp [convProgressEvent, downloading_msg_ne_conv]
  · split
    · rw [List.countP_cons]
      rw [countP_conv_logEv]
      simp [convProgressEvent, dlfinished_msg_ne_conv]
    · rfl

theorem countP_conv_hooks (cfg : Config) (f : Option String) (idx n idx2 n2 : Nat)
    (title : String) :
    ∀ hs : List HookEvent,
      ((hs.map (hookRun cfg f idx2 n2)).flatten).countP
        (fun e => decide (e = convProgressEvent title idx n)) = 0 := by
  intro hs
  induction hs with
  | nil => rfl
  | cons h hs ih =>
    rw [List.map_cons, List.flatten_cons, List.countP_append, ih,
      countP_conv_hookRun cfg f idx n idx2 n2 h title]

theorem countP_convLineEvents (cfg : Config) (title : String) (idx n : Nat)
    (line : String) :
    (convLineEvents cfg title idx n line).countP
        (fun e => decide (e = convProgressEvent title idx n))
      = if pyContains line "time=" then 1 else 0 := by
  unfold convLineEvents
  by_cases hc : pyContains line "time="
  · rw [if_pos hc, if_pos hc, List.countP_cons, countP_conv_logEv]
    simp [convProgressEvent]
  · rw [if_neg hc, if_neg hc]
    rfl

theorem countP_convTrace (cfg : Config) (title : String) (idx n : Nat)
    (ls : List String) :
    (convTrace cfg title idx n ls).countP
        (fun e => decide (e = convProgressEvent title idx n))
      = ls.countP (fun l => pyContains l "time=") := by
  unfold convTrace
  rw [List.countP_append, List.countP_cons, countP_conv_logEv]
  have hflat : ∀ ls2 : List String,
      ((ls2.map (convLineEvents cfg title idx n)).flatten).countP
        (fun e => decide (e = convProgressEvent title idx n))
      = ls2.countP (fun l => pyContains l "time=") := by
    intro ls2
    induction ls2 with
    | nil => rfl
    | cons l ls2 ih =>
      rw [List.map_cons, List.flatten_cons, List.countP_append, ih,
        countP_convLineEvents, List.countP_cons]
      by_cases hc : pyContains l "time=" <;> simp [hc, Nat.add_comm]
  rw [hflat ls]
  have hfin : decide (Event.progress 100 ("Conversion finished: " ++ title)
      = convProgressEvent title idx n) = false := by
    simp [convProgressEvent]
  rw [hfin]
  simp

theorem ffmpegCall_notin_hooks (cfg : Config) (f : Option String) (idx n : Nat)
    (hs : List HookEvent) :
    ∀ cmd, Event.ffmpegCall cmd ∉ ((hs.map (hookRun cfg f idx n)).flatten) := by
  intro cmd hmem
  rcases List.mem_flatten.1 hmem with ⟨l, hl, hel⟩
  rcases List.mem_map.1 hl with ⟨ev, _, rfl⟩
  unfold hookRun at hel
  split at hel
  · rcases List.mem_cons.1 hel with h | h
    · exact Event.noConfusion h
    · unfold logEv at h
      split at h
      · exact Event.noConfusion (List.mem_singleton.1 h)
      · simp at h
  · split at hel
    · rcases List.mem_cons.1 hel with h | h
      · exact Event.noConfusion h
      · unfold logEv at h
        split at h
        · exact Event.noConfusion (List.mem_singleton.1 h)
        · simp at h
    · simp at hel


/-- C6: for an item whose download succeeded, ffmpeg is invoked iff the
to-mp3 option is on; when it runs, each stdout line containing `time=`
triggers exactly one conversion progress report, and a completion report
for the item is emitted after the scan. -/
theorem transcode_iff_to_mp3 (cfg : Config) (n idx : Nat) (t : DlTask)
    (b : ItemBehavior) (info : Info) (hok : b.dlResult = Except.ok info) :
    (cfg.to_mp3 = false → ∀ cmd, Event.ffmpegCall cmd ∉ (processItem cfg n idx t b).1)
    ∧ (cfg.to_mp3 = true → ∃ cmd, Event.ffmpegCall cmd ∈ (processItem cfg n idx t b).1)
    ∧ (∀ outLines, cfg.to_mp3 = true → b.ffmpegResult = Except.ok outLines →
        ((processItem cfg n idx t b).1.countP
            (fun ev => decide (ev = convProgressEvent (titleOf t info) idx n))
          = outLines.countP (fun l => pyContains l "time="))
        ∧ Event.progress 100 ("Conversion finished: " ++ titleOf t info)
            ∈ (processItem cfg n idx t b).1) := by
  refine ⟨?_, ?_, ?_⟩
  · intro hm cmd hmem
    unfold processItem at hmem
    rw [hok] at hmem
    dsimp only at hmem
    rw [if_neg (by rw [hm]; exact Bool.false_ne_true)] at hmem
    rcases List.mem_cons.1 hmem with h | h
    · exact Event.noConfusion h
    · exact ffmpegCall_notin_hooks cfg t.filename idx n b.hookEvents cmd h
  · intro hm
    unfold processItem
    rw [hok]
    dsimp only
    rw [if_pos hm]
    rcases b.ffmpegResult with e | outLines <;>
      exact ⟨_, List.mem_append_right _ (List.mem_cons_self _ _)⟩
  · intro outLines hm hf
    unfold processItem
    rw [hok]
    dsimp only
    rw [if_pos hm, hf]
    dsimp only
    constructor
    · rw [show (Event.dlCall t.url (mkOpts cfg t)
            :: (b.hookEvents.map (hookRun cfg t.filename idx n)).flatten
          ++ Event.ffmpegCall
              (ffmpegCmd (pathJoin cfg.output_dir (titleOf t info ++ ".mp4"))
                (pathJoin cfg.output_dir (titleOf t info ++ ".mp3")))
            :: convTrace cfg (titleOf t info) idx n outLines)
          = (Event.dlCall t.url (mkOpts cfg t)
              :: (b.hookEvents.map (hookRun cfg t.filename idx n)).flatten)
            ++ (Event.ffmpegCall
                (ffmpegCmd (pathJoin cfg.output_dir (titleOf t info ++ ".mp4"))
                  (pathJoin cfg.output_dir (titleOf t info ++ ".mp3")))
              :: convTrace cfg (titleOf t info) idx n outLines) from rfl]
      rw [List.countP_append, List.countP_cons, List.countP_cons,
        countP_conv_hooks cfg t.filename idx n idx n (titleOf t info) b.hookEvents,
        countP_convTrace]
      simp [convProgressEvent]
    · apply List.mem_append_right
      apply List.mem_cons_of_mem
      unfold convTrace
      exact List.mem_append_right _ (List.mem_cons_self _ _)

theorem transcode_iff_to_mp3_witness :
    ((processItem cfgM 1 1 taskW (envW 1)).1.countP
        (fun ev => decide (ev = convProgressEvent (titleOf taskW { title := some "T" }) 1 1))
      = (["frame time=00:01", "other"].countP (fun l => pyContains l "time=")))
    ∧ Event.progress 100 ("Conversion finished: " ++ titleOf taskW { title := some "T" })
        ∈ (processItem cfgM 1 1 taskW (envW 1)).1 :=
  (transcode_iff_to_mp3 cfgM 1 1 taskW (envW 1) { title := some "T" } rfl).2.2
    ["frame time=00:01", "other"] rfl rfl


theorem progress_notin_logEv (cfg : Config) (m : String) (p : Nat) (msg : String) :
    Event.progress p msg ∉ logEv cfg m := by
  intro h
  unfold logEv at h
  split at h
  · exact Event.noConfusion (List.mem_singleton.1 h)
  · simp at h

theorem progress_mem_hookRun (cfg : Config) (f : Option String) (idx n : Nat)
    (ev : HookEvent) (p : Nat) (m : String)
    (h : Event.progress p m ∈ hookRun cfg f idx n ev) :
    p = hookPercent ev ∨ p = 100 := by
  unfold hookRun at h
  split at h
  · rcases List.mem_cons.1 h with h2 | h2
    · injection h2 with h3 _
      exact Or.inl h3
    · exact absurd h2 (progress_notin_logEv cfg _ p m)
  · split at h
    · rcases List.mem_cons.1 h with h2 | h2
      · injection h2 with h3 _
        exact Or.inr h3
      · exact absurd h2 (progress_notin_logEv cfg _ p m)
    · simp at h

theorem progress_mem_convLineEvents (cfg : Config) (title : String) (idx n : Nat)
    (line : String) (p : Nat) (m : String)
    (h : Event.progress p m ∈ convLineEvents cfg title idx n line) :
    p = 50 := by
  unfold convLineEvents at h
  split at h
  · rcases List.mem_cons.1 h with h2 | h2
    · cases h2
      rfl
    · exact absurd h2 (progress_notin_logEv cfg _ p m)
  · simp at h

theorem progress_mem_convTrace (cfg : Config) (title : String) (idx n : Nat)
    (ls : List String) (p : Nat) (m : String)
    (h : Event.progress p m ∈ convTrace cfg title idx n ls) :
    p = 50 ∨ p = 100 := by
  unfold convTrace at h
  rcases List.mem_append.1 h with h2 | h2
  · rcases List.mem_flatten.1 h2 with ⟨l, hl, hel⟩
    rcases List.mem_map.1 hl with ⟨line, _, rfl⟩
    exact Or.inl (progress_mem_convLineEvents cfg title idx n line p m hel)
  · rcases List.mem_cons.1 h2 with h3 | h3
    · injection h3 with h4 _
      exact Or.inr h4
    · exact absurd h3 (progress_notin_logEv cfg _ p m)

theorem progress_mem_processItem (cfg : Config) (n idx : Nat) (t : DlTask)
    (b : ItemBehavior) (p : Nat) (m : String)
    (h : Event.progress p m ∈ (processItem cfg n idx t b).1) :
    (∃ e ∈ b.hookEvents, p = hookPercent e) ∨ p = 100 ∨ p = 50 := by
  have hooks : Event.progress p m ∈ ((b.hookEvents.map (hookRun cfg t.filename idx n)).flatten)
      → (∃ e ∈ b.hookEvents, p = hookPercent e) ∨ p = 100 ∨ p = 50 := by
    intro h2
    rcases List.mem_flatten.1 h2 with ⟨l, hl, hel⟩
    rcases List.mem_map.1 hl with ⟨ev, hev, rfl⟩
    rcases progress_mem_hookRun cfg t.filename idx n ev p m hel with h3 | h3
    · exact Or.inl ⟨ev, hev, h3⟩
    · exact Or.inr (Or.inl h3)
  unfold processItem at h
  rcases hb : b.dlResult with e | info <;> rw [hb] at h <;> dsimp only at h
  · rcases List.mem_append.1 h with h2 | h2
    · rcases List.mem_cons.1 h2 with h3 | h3
      · exact Event.noConfusion h3
      · exact hooks h3
    · exact absurd h2 (progress_notin_logEv cfg _ p m)
  · by_cases hm : cfg.to_mp3
    · rw [if_pos hm] at h
      rcases hf : b.ffmpegResult with e | outLines <;> rw [hf] at h <;> dsimp only at h
      · rcases List.mem_append.1 h with h2 | h2
        · rcases List.mem_cons.1 h2 with h3 | h3
          · exact Event.noConfusion h3
          · exact hooks h3
        · rcases List.mem_cons.1 h2 with h3 | h3
          · exact Event.noConfusion h3
          · exact absurd h3 (progress_notin_logEv cfg _ p m)
      · rcases List.mem_append.1 h with h2 | h2
        · rcases List.mem_cons.1 h2 with h3 | h3
          · exact Event.noConfusion h3
          · exact hooks h3
        · rcases List.mem_cons.1 h2 with h3 | h3
          · exact Event.noConfusion h3
          · rcases progress_mem_convTrace cfg _ idx n outLines p m h3 with h4 | h4
            · exact Or.inr (Or.inr h4)
            · exact Or.inr (Or.inl h4)
    · rw [if_neg hm] at h
      rcases List.mem_cons.1 h with h3 | h3
      · exact Event.noConfusion h3
      · exact hooks h3

theorem hookPercent_le_100 (e : HookEvent)
    (h : e.downloaded_bytes ≤ max (e.total_bytes.getD 1) 1) :
    hookPercent e ≤ 100 := by
  unfold hookPercent
  have hp : 0 < max (e.total_bytes.getD 1) 1 :=
    lt_of_lt_of_le Nat.zero_lt_one (le_max_right _ _)
  calc e.downloaded_bytes * 100 / max (e.total_bytes.getD 1) 1
      ≤ max (e.total_bytes.getD 1) 1 * 100 / max (e.total_bytes.getD 1) 1 :=
        Nat.div_le_div_right (Nat.mul_le_mul_right _ h)
    _ = 100 := by rw [Nat.mul_div_cancel_left _ hp]

theorem progress_mem_runFrom (cfg : Config) (n : Nat) (env : Nat → ItemBehavior) :
    ∀ ts idx p m, Event.progress p m ∈ (runFrom cfg n env idx ts).1 →
      ∃ i, (∃ e ∈ (env i).hookEvents, p = hookPercent e) ∨ p = 100 ∨ p = 50 := by
  intro ts
  induction ts with
  | nil => intro idx p m h; simp [runFrom] at h
  | cons t ts ih =>
    intro idx p m h
    have hstep : (runFrom cfg n env idx (t :: ts)).1
        = (processItem cfg n idx t (env idx)).1 ++ (runFrom cfg n env (idx + 1) ts).1 := rfl
    rw [hstep] at h
    rcases List.mem_append.1 h with h2 | h2
    · exact ⟨idx, progress_mem_processItem cfg n idx t (env idx) p m h2⟩
    · exact ih (idx + 1) p m h2

/-- C7 fails as stated: when the downloader reports more downloaded bytes
than the (defaulted) total, the emitted percentage exceeds 100. -/
theorem progress_percent_counterexample :
    Event.progress 20000 "Downloading video (1/1)"
      ∈ runWorker cfgW [{ url := "u", filename := none }] envBad
    ∧ ¬ (20000 ≤ 100) :=
  ⟨by decide, by decide⟩

/-- C7 (amended): every progress event pairs a percentage with a status
text, and the percentage lies between 0 and 100 inclusive provided the
downloader never reports `downloaded_bytes` above `max(total_bytes, 1)` in
its downloading hook dicts; conversion-phase and finished reports are
always 50 or 100.  Without that proviso the downloading percentage is
unbounded (`progress_percent_counterexample`). -/
theorem progress_percent_bounded_amended (cfg : Config) (tasks : List DlTask)
    (env : Nat → ItemBehavior)
    (h : ∀ i, ∀ e ∈ (env i).hookEvents,
      e.downloaded_bytes ≤ max (e.total_bytes.getD 1) 1) :
    ∀ p m, Event.progress p m ∈ runWorker cfg tasks env → p ≤ 100 := by
  intro p m hmem
  unfold runWorker at hmem
  rcases List.mem_cons.1 hmem with h2 | h2
  · exact Event.noConfusion h2
  · rcases List.mem_append.1 h2 with h3 | h3
    · rcases progress_mem_runFrom cfg tasks.length env tasks 1 p m h3 with ⟨i, hcases⟩
      rcases hcases with ⟨e, he, rfl⟩ | rfl | rfl
      · exact hookPercent_le_100 e (h i e he)
      · exact Nat.le_refl 100
      · exact Nat.le_of_lt (by decide)
    · exact Event.noConfusion (List.mem_singleton.1 h3)

theorem progress_percent_bounded_amended_witness : 20 ≤ 100 :=
  progress_percent_bounded_amended cfgW [taskW] envW
    (by
      intro i e he
      have h2 := List.mem_singleton.1 he
      rw [h2]
      decide)
    20 "Downloading vid (1/1)" (by decide)

theorem create_logger_path_eq (ts : String) :
    create_logger_path ts = "logs/" ++ (ts ++ ".log") := by
  unfold create_logger_path pathJoin
  rw [if_neg (by decide), if_neg (by decide)]
  apply String.ext
  rw [String.data_append, String.data_append, String.data_append, String.data_append]
  rw [← List.append_assoc]
  rfl

theorem create_logger_path_inj (ts ts' : String) (h : ts ≠ ts') :
    create_logger_path ts ≠ create_logger_path ts' := by
  intro he
  rw [create_logger_path_eq, create_logger_path_eq] at he
  have hd := congrArg String.data he
  rw [String.data_append, String.data_append, String.data_append,
    String.data_append] at hd
  have h1 := List.append_cancel_left hd
  have h2 := List.append_cancel_right h1
  exact h (String.ext h2)

/-- C8: each run creates its own log file in the `logs` directory, named
from the creation timestamp (distinct timestamps give distinct files), and
the completion marker is appended to that log only after the finished
notification carrying all collected result strings has been emitted: in the
whole-run trace the `finished` event precedes the marker write, and no
marker write or finished event occurs earlier. -/
theorem per_run_log_and_completion_marker (cfg : Config) (tasks : List DlTask)
    (env : Nat → ItemBehavior) (ts ts' : String) (h : ts ≠ ts') :
    create_logger_path ts = "logs/" ++ (ts ++ ".log")
    ∧ create_logger_path ts ≠ create_logger_path ts'
    ∧ appRun cfg tasks env ts
        = (Event.mkdir "logs" :: Event.createLog (create_logger_path ts)
            :: Event.mkdir cfg.output_dir :: itemEvents cfg tasks env)
          ++ Event.finished (resultsOf cfg tasks env)
            :: Event.logRaw finishMarker
            :: [Event.showInfo "完了" (String.intercalate "\n\n" (resultsOf cfg tasks env))]
    ∧ (∀ r, Event.finished r ∉ itemEvents cfg tasks env)
    ∧ (∀ s, Event.logRaw s ∉ itemEvents cfg tasks env) := by
  refine ⟨create_logger_path_eq ts, create_logger_path_inj ts ts' h, ?_, ?_, ?_⟩
  · simp [appRun, runWorker, download_finished_events]
  · intro r hmem
    have h2 := itemEvents_loopEvent cfg tasks env _ hmem
    exact absurd h2 (by simp [isLoopEvent])
  · intro s hmem
    have h2 := itemEvents_loopEvent cfg tasks env _ hmem
    exact absurd h2 (by simp [isLoopEvent])

theorem per_run_log_and_completion_marker_witness :
    create_logger_path "20250101_000000" ≠ create_logger_path "20250101_000001" :=
  (per_run_log_and_completion_marker cfgW [] envW
    "20250101_000000" "20250101_000001" (by decide)).2.1

/-- C9: an entirely empty URL text box makes `start_download` show the error
dialog and start nothing, but text made only of blank lines passes the
emptiness check (`splitlines` of a non-empty text is non-empty), the worker
is started with an empty task list, and the finished notification carries an
empty result list. -/
theorem blank_lines_start_empty_worker :
    start_download "" = Except.error "URLを入力してください"
    ∧ ∀ text : String, text ≠ "" → (∀ l ∈ pySplitlines text, pyStrip l = "") →
        start_download text = Except.ok []
        ∧ ∀ cfg env, runWorker cfg [] env
            = [Event.mkdir cfg.output_dir, Event.finished []] := by
  constructor
  · rfl
  · intro text ht hblank
    have hok : start_download text = Except.ok (buildTasks (pySplitlines text)) := by
      unfold start_download
      rw [if_neg (fun hemp => pySplitlines_ne_nil text ht (List.isEmpty_iff.1 hemp))]
    have hempty : buildTasks (pySplitlines text) = [] := by
      unfold buildTasks
      have hfil : (pySplitlines text).filter (fun l => decide (pyStrip l ≠ "")) = [] := by
        rw [List.filter_eq_nil_iff]
        intro l hl
        simp [hblank l hl]
      rw [hfil]
      rfl
    refine ⟨by rw [hok, hempty], ?_⟩
    intro cfg env
    rfl

theorem blank_lines_start_empty_worker_witness :
    start_download " \n " = Except.ok []
    ∧ runWorker cfgW [] envW = [Event.mkdir cfgW.output_dir, Event.finished []] :=
  ⟨(blank_lines_start_empty_worker.2 " \n " (by decide) (by decide)).1,
   (blank_lines_start_empty_worker.2 " \n " (by decide) (by decide)).2 cfgW envW⟩


theorem cookieOpt_none_of_missing (cfg : Config) (p : String)
    (hc : cfg.cookies_file = some p) (hx : cfg.fsExists p = false) :
    cookieOpt cfg = none := by
  unfold cookieOpt
  rw [hc]
  by_cases hp : p = "" <;> simp [hp, hx]

theorem mkOpts_noCookies (cfg : Config) (t : DlTask) (p : String)
    (hc : cfg.cookies_file = some p) (hx : cfg.fsExists p = false) :
    mkOpts (noCookies cfg) t = mkOpts cfg t := by
  unfold mkOpts
  rw [cookieOpt_none_of_missing cfg p hc hx]
  rfl

theorem processItem_noCookies (cfg : Config) (p : String)
    (hc : cfg.cookies_file = some p) (hx : cfg.fsExists p = false)
    (n idx : Nat) (t : DlTask) (b : ItemBehavior) :
    processItem (noCookies cfg) n idx t b = processItem cfg n idx t b := by
  unfold processItem
  rw [mkOpts_noCookies cfg t p hc hx]
  rfl

theorem runFrom_noCookies (cfg : Config) (p : String)
    (hc : cfg.cookies_file = some p) (hx : cfg.fsExists p = false)
    (n : Nat) (env : Nat → ItemBehavior) :
    ∀ ts idx, runFrom (noCookies cfg) n env idx ts = runFrom cfg n env idx ts := by
  intro ts
  induction ts with
  | nil => intro idx; rfl
  | cons t ts ih =>
    intro idx
    have hstepL : runFrom (noCookies cfg) n env idx (t :: ts)
        = ((processItem (noCookies cfg) n idx t (env idx)).1
            ++ (runFrom (noCookies cfg) n env (idx + 1) ts).1,
           (processItem (noCookies cfg) n idx t (env idx)).2
            :: (runFrom (noCookies cfg) n env (idx + 1) ts).2) := rfl
    have hstepR : runFrom cfg n env idx (t :: ts)
        = ((processItem cfg n idx t (env idx)).1 ++ (runFrom cfg n env (idx + 1) ts).1,
           (processItem cfg n idx t (env idx)).2 :: (runFrom cfg n env (idx + 1) ts).2) := rfl
    rw [hstepL, hstepR, processItem_noCookies cfg p hc hx n idx t (env idx), ih (idx + 1)]

theorem runWorker_noCookies (cfg : Config) (p : String)
    (hc : cfg.cookies_file = some p) (hx : cfg.fsExists p = false)
    (tasks : List DlTask) (env : Nat → ItemBehavior) :
    runWorker (noCookies cfg) tasks env = runWorker cfg tasks env := by
  unfold runWorker itemEvents resultsOf
  rw [runFrom_noCookies cfg p hc hx tasks.length env tasks 1]
  rfl

/-- C10: when a cookies file path is supplied but no file exists at it, the
`cookiefile` option is silently left out of the downloader options for every
item, and the whole run behaves exactly as a run with no cookies file at
all — no error surfaces anywhere in the trace or the results. -/
theorem missing_cookies_file_silently_omitted (cfg : Config) (tasks : List DlTask)
    (env : Nat → ItemBehavior) (p : String)
    (hc : cfg.cookies_file = some p) (hx : cfg.fsExists p = false) :
    (∀ t, (mkOpts cfg t).cookiefile = none)
    ∧ (∀ t, mkOpts cfg t = mkOpts (noCookies cfg) t)
    ∧ runWorker cfg tasks env = runWorker (noCookies cfg) tasks env := by
  refine ⟨?_, ?_, (runWorker_noCookies cfg p hc hx tasks env).symm⟩
  · intro t
    unfold mkOpts
    exact cookieOpt_none_of_missing cfg p hc hx
  · intro t
    exact (mkOpts_noCookies cfg t p hc hx).symm

theorem missing_cookies_file_silently_omitted_witness :
    (mkOpts cfgCk taskW).cookiefile = none
    ∧ runWorker cfgCk [taskW] envW = runWorker (noCookies cfgCk) [taskW] envW :=
  ⟨(missing_cookies_file_silently_omitted cfgCk [taskW] envW "cookies.txt" rfl rfl).1 taskW,
   (missing_cookies_file_silently_omitted cfgCk [taskW] envW "cookies.txt" rfl rfl).2.2⟩
